import Mathlib

/-!
Shallow embedding of `compath_resources/curation.py`.

The module has two functions:
* `calculate_jaccard(set_1, set_2)` — `len(set_1 & set_2) / min(len(set_1), len(set_2))`,
  raising `ZeroDivisionError` when the smaller set is empty;
* `make_similarity_matricies(directory, minimum_gene_set_similarity, minimum_string_similarity)`
  — for every unordered pair of populated sources, scores the full cross product of their
  pathway gene sets, filters by the two thresholds, sorts the surviving rows descending by
  (first pathway id, gene-set similarity), stores the table in the returned dict and writes
  one `.tsv` file per pair.

Python sets of gene symbols become `Finset String`; Python dicts become association lists
in insertion order (`dictInsert` reproduces dict-update semantics: replacing a present key
keeps its position).  Python floats become `ℚ` (all scores are ratios of machine integers;
we model the exact rational value).  Exceptions become `Except PyError`.  File writes
become an explicit list of `FileWrite` records in write order.
-/

/-- The Python exceptions the module can raise while computing:
`ZeroDivisionError` from `calculate_jaccard`, `KeyError` from a dict subscript. -/
inductive PyError where
  | zeroDivisionError : PyError
  | keyError : String → PyError
deriving DecidableEq, Repr

/-- Decidable equality for `Except`, used only to let witnesses evaluate by `decide`. -/
instance {ε α : Type} [DecidableEq ε] [DecidableEq α] : DecidableEq (Except ε α) :=
  fun a b =>
    match a, b with
    | .ok x, .ok y => if h : x = y then .isTrue (by rw [h]) else .isFalse (by simp [h])
    | .error e, .error f => if h : e = f then .isTrue (by rw [h]) else .isFalse (by simp [h])
    | .ok _, .error _ => .isFalse (by simp)
    | .error _, .ok _ => .isFalse (by simp)

/-- `calculate_jaccard(set_1, set_2)` (curation.py lines 77-88):
`intersection = len(set_1.intersection(set_2)); smaller_set = min(len(set_1), len(set_2));
return intersection / smaller_set`.  Python raises `ZeroDivisionError` when
`smaller_set == 0`; otherwise the division produces `intersection / smaller_set`,
whose exact rational value is `mkRat intersection smaller_set`. -/
def calculate_jaccard (set_1 set_2 : Finset String) : Except PyError ℚ :=
  let intersection := (set_1 ∩ set_2).card
  let smaller_set := min set_1.card set_2.card
  if smaller_set = 0 then .error .zeroDivisionError
  else .ok (mkRat intersection smaller_set)

/-!  difflib's `SequenceMatcher(None, a, b).ratio()`, specialised to the case the code
exercises (junk predicate `None` and `len(b) < 200`, so the junk set and the popular set
are both empty and the post-loop junk extension passes of `find_longest_match` are no-ops).
-/

/-- The positions `j ∈ [blo, bhi)` with `b[j] = c`, ascending: the `b2j` lookup of
difflib's `find_longest_match`, restricted to the window exactly as the
`if j < blo: continue` / `if j >= bhi: break` lines do. -/
def bIndices (b : List Char) (c : Char) (blo bhi : Nat) : List Nat :=
  (List.range b.length).filter fun j => decide (blo ≤ j) && decide (j < bhi) && (b.getD j c == c)

/-- Inner loop of `find_longest_match` over the matching positions `j` for a fixed `i`:
`k = newj2len[j] = j2len.get(j-1, 0) + 1`, updating the best block when `k > bestsize`. -/
def procJ (i : Nat) (j2len : List (Nat × Nat)) :
    List Nat → List (Nat × Nat) → Nat × Nat × Nat → List (Nat × Nat) × (Nat × Nat × Nat)
  | [], newj2len, best => (newj2len, best)
  | j :: js, newj2len, best =>
    let k := (if j = 0 then 0 else ((j2len.lookup (j - 1)).getD 0)) + 1
    let best := if k > best.2.2 then (i + 1 - k, j + 1 - k, k) else best
    procJ i j2len js ((j, k) :: newj2len) best

/-- Outer loop of `find_longest_match` over `i ∈ [alo, ahi)`. -/
def flmOuter (a b : List Char) (blo bhi : Nat) :
    List Nat → List (Nat × Nat) → Nat × Nat × Nat → Nat × Nat × Nat
  | [], _, best => best
  | i :: is, j2len, best =>
    let step := procJ i j2len (bIndices b (a.getD i ' ') blo bhi) [] best
    flmOuter a b blo bhi is step.1 step.2

/-- difflib `SequenceMatcher.find_longest_match` on the window
`a[alo:ahi] × b[blo:bhi]`, with empty junk set: returns `(besti, bestj, bestsize)`. -/
def find_longest_match (a b : List Char) (alo ahi blo bhi : Nat) : Nat × Nat × Nat :=
  flmOuter a b blo bhi ((List.range ahi).drop alo) [] (alo, blo, 0)

/-- Total size of the matching blocks that difflib's `get_matching_blocks` finds in the
window, by the same recursive decomposition (fuel bounds the recursion depth; the top
level passes more fuel than the depth can reach). -/
def matchingBlocksTotal (a b : List Char) : Nat → Nat → Nat → Nat → Nat → Nat
  | 0, _, _, _, _ => 0
  | fuel + 1, alo, ahi, blo, bhi =>
    let m := find_longest_match a b alo ahi blo bhi
    if m.2.2 = 0 then 0
    else
      m.2.2 + matchingBlocksTotal a b fuel alo m.1 blo m.2.1 +
        matchingBlocksTotal a b fuel (m.1 + m.2.2) ahi (m.2.1 + m.2.2) bhi

/-- `SequenceMatcher(None, a_name, b_name).ratio()` (curation.py lines 54-55):
`2.0 * matches / (len(a) + len(b))`, and `1.0` when both strings are empty;
the exact rational value of the float the code computes. -/
def string_similarity (a b : String) : ℚ :=
  let la := a.toList
  let lb := b.toList
  let matchTotal := matchingBlocksTotal la lb (la.length + lb.length + 1) 0 la.length 0 lb.length
  if la.length + lb.length = 0 then 1
  else mkRat (2 * matchTotal) (la.length + lb.length)

/-- The gene-set similarity value the code computes for two sets whose smaller one is
non-empty: `|s1 ∩ s2| / min(|s1|, |s2|)` as an exact rational. -/
def jacVal (s1 s2 : Finset String) : ℚ :=
  mkRat ((s1 ∩ s2).card) (min s1.card s2.card)

/-!  The pairwise similarity engine (curation.py lines 15-74). -/

/-- One populated source, as the adapter loop (lines 29-39) records it: its registry
name, `manager.get_pathway_id_to_symbols()` and `manager.get_pathway_id_name_mapping()`,
both dicts in iteration order. -/
structure Source where
  name : String
  gene_sets : List (String × Finset String)
  pathway_names : List (String × String)
deriving DecidableEq

/-- One row appended at lines 59-63: `(a_pathway_id, a_mappings[a_pathway_id],
b_pathway_id, b_mappings[b_pathway_id], gene_similarity, string_similarity)`. -/
structure Row where
  a_pathway_id : String
  a_pathway_name : String
  b_pathway_id : String
  b_pathway_name : String
  gene_set_similarity : ℚ
  str_similarity : ℚ
deriving DecidableEq, Repr

/-- Python dict update `m[k] = v`: replaces the value of a present key in place,
appends a new key at the end. -/
def dictInsert {β : Type} : List (String × β) → String → β → List (String × β)
  | [], k, v => [(k, v)]
  | (k', v') :: rest, k, v =>
    if k' = k then (k, v) :: rest else (k', v') :: dictInsert rest k v

/-- Python dict subscript `m[k]`: the value of the first matching key, or `KeyError`. -/
def dictGet {β : Type} (m : List (String × β)) (k : String) : Except PyError β :=
  match m.lookup k with
  | some v => .ok v
  | none => .error (.keyError k)

/-- `itertools.combinations(l, r=2)` over a dict's items (line 42): all pairs of
distinct positions, in order, earlier element first. -/
def combinations2 {α : Type} : List α → List (α × α)
  | [] => []
  | x :: xs => (xs.map fun y => (x, y)) ++ combinations2 xs

/-- `itertools.product(xs, ys)` (line 47): the full cross product, `xs` outer loop. -/
def listProduct {α β : Type} (xs : List α) (ys : List β) : List (α × β) :=
  xs.foldr (fun x acc => (ys.map fun y => (x, y)) ++ acc) []

/-- The body of the cross-product loop (lines 49-63): score the pair, drop it when
`gene_similarity < minimum_gene_set_similarity`, else compute the string similarity of
the two source names, drop the pair when it is `< minimum_string_similarity`, else look
both pathway display names up (each subscript can raise `KeyError`) and keep the row.
A raised exception aborts the whole loop. -/
def rowsLoop (a_name b_name : String) (a_mappings b_mappings : List (String × String))
    (min_gene min_str : ℚ) :
    List ((String × Finset String) × (String × Finset String)) → Except PyError (List Row)
  | [] => .ok []
  | ((a_pathway_id, a_set), (b_pathway_id, b_set)) :: rest =>
    calculate_jaccard a_set b_set >>= fun gene_similarity =>
    if gene_similarity < min_gene then
      rowsLoop a_name b_name a_mappings b_mappings min_gene min_str rest
    else if string_similarity a_name b_name < min_str then
      rowsLoop a_name b_name a_mappings b_mappings min_gene min_str rest
    else
      dictGet a_mappings a_pathway_id >>= fun a_pathway_name =>
      dictGet b_mappings b_pathway_id >>= fun b_pathway_name =>
      rowsLoop a_name b_name a_mappings b_mappings min_gene min_str rest >>= fun rows =>
      .ok (⟨a_pathway_id, a_pathway_name, b_pathway_id, b_pathway_name,
        gene_similarity, string_similarity a_name b_name⟩ :: rows)

/-- Lexicographic strict comparison of char lists by code point — the order Python
(and pandas) uses on `str` columns.  Structurally recursive so that the kernel can
evaluate it on concrete rows. -/
def strLtList : List Char → List Char → Bool
  | [], [] => false
  | [], _ :: _ => true
  | _ :: _, [] => false
  | c :: cs, d :: ds => if c < d then true else if d < c then false else strLtList cs ds

/-- Python `str` comparison `a < b`. -/
def strLtB (a b : String) : Bool :=
  strLtList a.toList b.toList

theorem strLtList_iff_lex : ∀ l m : List Char, strLtList l m = true ↔ List.Lex (· < ·) l m
  | [], [] => by
    simp only [strLtList, Bool.false_eq_true, false_iff]
    exact List.Lex.not_nil_right _ _
  | [], _ :: _ => by
    simp only [strLtList, true_iff]
    exact List.Lex.nil
  | _ :: _, [] => by
    simp only [strLtList, Bool.false_eq_true, false_iff]
    exact List.Lex.not_nil_right _ _
  | c :: cs, d :: ds => by
    simp only [strLtList]
    rcases lt_trichotomy c d with h | h | h
    · simp only [h, if_true, true_iff]
      exact List.Lex.rel h
    · subst h
      simp only [lt_irrefl, if_false, strLtList_iff_lex cs ds]
      constructor
      · exact fun hl => List.Lex.cons hl
      · intro hl
        cases hl with
        | cons h2 => exact h2
        | rel h2 => exact absurd h2 (lt_irrefl c)
    · simp only [if_neg (asymm h), h, if_true, Bool.false_eq_true, false_iff]
      intro hl
      cases hl with
      | cons h2 => exact absurd rfl (ne_of_gt h)
      | rel h2 => exact absurd h2 (asymm h)

/-- `strLtB` computes the standard (Mathlib) strict order on `String`. -/
theorem strLtB_iff (a b : String) : strLtB a b = true ↔ a < b := by
  rw [String.lt_iff_toList_lt]
  exact strLtList_iff_lex a.toList b.toList

/-- The sort key of `df.sort_values([f'{a_name}_id', 'gene_set_similarity'],
ascending=False)` (line 69): `r1` precedes `r2` when `(r1.a_pathway_id,
r1.gene_set_similarity)` is greater or equal to `(r2.a_pathway_id,
r2.gene_set_similarity)` in the lexicographic order, both components descending. -/
def rowGE (r1 r2 : Row) : Prop :=
  r2.a_pathway_id < r1.a_pathway_id ∨
    (r2.a_pathway_id = r1.a_pathway_id ∧ r2.gene_set_similarity ≤ r1.gene_set_similarity)

instance : DecidableRel rowGE := fun r1 r2 =>
  decidable_of_iff
    (strLtB r2.a_pathway_id r1.a_pathway_id = true ∨
      (r2.a_pathway_id = r1.a_pathway_id ∧ r2.gene_set_similarity ≤ r1.gene_set_similarity))
    (by rw [strLtB_iff]; exact Iff.rfl)

instance : IsTotal Row rowGE := by
  constructor
  intro a b
  unfold rowGE
  rcases lt_trichotomy a.a_pathway_id b.a_pathway_id with h | h | h
  · exact Or.inr (Or.inl h)
  · rcases le_total a.gene_set_similarity b.gene_set_similarity with h2 | h2
    · exact Or.inr (Or.inr ⟨h, h2⟩)
    · exact Or.inl (Or.inr ⟨h.symm, h2⟩)
  · exact Or.inl (Or.inl h)

instance : IsTrans Row rowGE := by
  constructor
  intro a b c hab hbc
  unfold rowGE at hab hbc ⊢
  rcases hab with h1 | ⟨h1, h1q⟩
  · rcases hbc with h2 | ⟨h2, h2q⟩
    · exact Or.inl (h2.trans h1)
    · exact Or.inl (h2.trans_lt h1)
  · rcases hbc with h2 | ⟨h2, h2q⟩
    · exact Or.inl (h2.trans_eq h1)
    · exact Or.inr ⟨h2.trans h1, h2q.trans h1q⟩

/-- Everything the engine does for one comparison pair before touching the filesystem
(lines 44-69): fetch the two name dicts, run the cross-product loop, sort the rows. -/
def pairReport (mappings : List (String × List (String × String)))
    (min_gene min_str : ℚ)
    (pair : (String × List (String × Finset String)) × (String × List (String × Finset String))) :
    Except PyError (List Row) :=
  dictGet mappings pair.1.1 >>= fun a_mappings =>
  dictGet mappings pair.2.1 >>= fun b_mappings =>
  rowsLoop pair.1.1 pair.2.1 a_mappings b_mappings min_gene min_str
      (listProduct pair.1.2 pair.2.2) >>= fun rows =>
  .ok (List.insertionSort rowGE rows)

/-- Whether a pathway pair passes both threshold filters of the loop: its gene-set
similarity is at least `min_gene` and the string similarity of the two source names is
at least `min_str`. -/
def passesB (min_gene min_str : ℚ) (a_name b_name : String)
    (p : (String × Finset String) × (String × Finset String)) : Bool :=
  decide (min_gene ≤ jacVal p.1.2 p.2.2) && decide (min_str ≤ string_similarity a_name b_name)

/-- The row the loop appends for a pathway pair that passes both filters, with the
display names resolved through the two name dicts. -/
def mkRow (a_mappings b_mappings : List (String × String)) (a_name b_name : String)
    (p : (String × Finset String) × (String × Finset String)) : Row :=
  ⟨p.1.1, (a_mappings.lookup p.1.1).getD "", p.2.1, (b_mappings.lookup p.2.1).getD "",
    jacVal p.1.2 p.2.2, string_similarity a_name b_name⟩

/-- `os.path.join(directory, f'{a_name}_{b_name}.tsv')` (line 71). -/
def tsvPath (directory a_name b_name : String) : String :=
  directory ++ "/" ++ a_name ++ "_" ++ b_name ++ ".tsv"

/-- One `df.to_csv(path, sep='\t', index=False)` call (line 72): the path written and
the sorted rows the table holds. -/
structure FileWrite where
  path : String
  content : List Row
deriving DecidableEq, Repr

/-- The loop over `itt.combinations(database.items(), r=2)` (lines 42-74): for each pair
in order, build its report, record it in `rv` and write its file; a raised exception
aborts the run, keeping the files already written but returning no mapping. -/
def processPairs (directory : String) (mappings : List (String × List (String × String)))
    (min_gene min_str : ℚ) :
    List ((String × List (String × Finset String)) × (String × List (String × Finset String))) →
    List FileWrite × Except PyError (List ((String × String) × List Row))
  | [] => ([], .ok [])
  | pair :: rest =>
    match pairReport mappings min_gene min_str pair with
    | .error e => ([], .error e)
    | .ok report =>
      let rec_result := processPairs directory mappings min_gene min_str rest
      (⟨tsvPath directory pair.1.1 pair.2.1, report⟩ :: rec_result.1,
        rec_result.2.map fun rv => ((pair.1.1, pair.2.1), report) :: rv)

/-- The dict `database` built by the adapter loop (lines 29-38):
`database[name] = manager.get_pathway_id_to_symbols()` for each populated source. -/
def databaseOf (sources : List Source) : List (String × List (String × Finset String)) :=
  sources.foldl (fun m s => dictInsert m s.name s.gene_sets) []

/-- The dict `mappings` built by the adapter loop (lines 29-39):
`mappings[name] = manager.get_pathway_id_name_mapping()` for each populated source. -/
def mappingsOf (sources : List Source) : List (String × List (String × String)) :=
  sources.foldl (fun m s => dictInsert m s.name s.pathway_names) []

/-- `make_similarity_matricies` (lines 15-74), with the external data-acquisition loop
replaced by its result: the list of populated sources in registry iteration order.
Lines 29-39 build the two dicts `database` and `mappings` keyed by source name; lines
41-74 run the engine.  Returns the files written, and either the returned mapping or
the exception that aborted the run. -/
def make_similarity_matricies (directory : String) (sources : List Source)
    (minimum_gene_set_similarity minimum_string_similarity : ℚ) :
    List FileWrite × Except PyError (List ((String × String) × List Row)) :=
  processPairs directory (mappingsOf sources) minimum_gene_set_similarity
    minimum_string_similarity (combinations2 (databaseOf sources))

/-!  Basic lemmas about the embedded operations. -/

theorem calculate_jaccard_eq (s1 s2 : Finset String) :
    calculate_jaccard s1 s2 =
      if min s1.card s2.card = 0 then .error .zeroDivisionError else .ok (jacVal s1 s2) := rfl

theorem calculate_jaccard_ok {s1 s2 : Finset String} {g : ℚ}
    (h : calculate_jaccard s1 s2 = .ok g) : g = jacVal s1 s2 ∧ min s1.card s2.card ≠ 0 := by
  rw [calculate_jaccard_eq] at h
  by_cases hm : min s1.card s2.card = 0
  · rw [if_pos hm] at h
    cases h
  · rw [if_neg hm] at h
    exact ⟨(Except.ok.injEq _ _).mp h.symm, hm⟩

theorem mkRat_natCast_div (i m : Nat) : mkRat i m = (i : ℚ) / (m : ℚ) := by
  rw [Rat.mkRat_eq_div, Int.cast_natCast]

theorem dictGet_ok {β : Type} {m : List (String × β)} {k : String} {v : β}
    (h : dictGet m k = .ok v) : m.lookup k = some v := by
  unfold dictGet at h
  cases hc : m.lookup k with
  | none => rw [hc] at h; cases h
  | some w => rw [hc] at h; cases h; rfl

theorem mem_listProduct {α β : Type} {xs : List α} {ys : List β} {x : α} {y : β} :
    (x, y) ∈ listProduct xs ys ↔ x ∈ xs ∧ y ∈ ys := by
  induction xs with
  | nil => simp [listProduct]
  | cons x0 xs ih =>
    have hstep : listProduct (x0 :: xs) ys = (ys.map fun y => (x0, y)) ++ listProduct xs ys := rfl
    rw [hstep]
    simp only [List.mem_append, List.mem_map, List.mem_cons, Prod.mk.injEq, ih]
    constructor
    · rintro (⟨y', hy, he1, he2⟩ | ⟨hx, hy⟩)
      · exact ⟨Or.inl he1.symm, he2 ▸ hy⟩
      · exact ⟨Or.inr hx, hy⟩
    · rintro ⟨hx | hx, hy⟩
      · exact Or.inl ⟨y, hy, hx.symm, rfl⟩
      · exact Or.inr ⟨hx, hy⟩

theorem lookup_eq_of_mem_of_nodup {β : Type} :
    ∀ {l : List (String × β)}, (l.map Prod.fst).Nodup →
      ∀ {k : String} {v : β}, (k, v) ∈ l → l.lookup k = some v := by
  intro l
  induction l with
  | nil => intro _ k v h1; cases h1
  | cons kv rest ih =>
    intro hnd k v h1
    obtain ⟨k0, v0⟩ := kv
    rw [List.map_cons, List.nodup_cons] at hnd
    rcases List.mem_cons.mp h1 with he | hm
    · cases he
      simp [List.lookup]
    · have hne : (k == k0) = false := by
        rw [beq_eq_false_iff_ne]
        intro he
        apply hnd.1
        rw [← he]
        exact List.mem_map.mpr ⟨(k, v), hm, rfl⟩
      simp only [List.lookup, hne]
      exact ih hnd.2 hm

theorem keys_nodup_val_eq {β : Type} {l : List (String × β)} (hnd : (l.map Prod.fst).Nodup)
    {k : String} {v w : β} (h1 : (k, v) ∈ l) (h2 : (k, w) ∈ l) : v = w := by
  have e1 := lookup_eq_of_mem_of_nodup hnd h1
  have e2 := lookup_eq_of_mem_of_nodup hnd h2
  rw [e1] at e2
  exact (Option.some.injEq _ _).mp e2

theorem except_bind_ok {ε α β : Type} (a : α) (f : α → Except ε β) :
    (Except.ok a >>= f) = f a := rfl

theorem except_bind_error {ε α β : Type} (e : ε) (f : α → Except ε β) :
    ((Except.error e : Except ε α) >>= f) = .error e := rfl

theorem except_map_ok {ε α β : Type} (a : α) (f : α → β) :
    (Except.ok a : Except ε α).map f = .ok (f a) := rfl

theorem except_map_error {ε α β : Type} (e : ε) (f : α → β) :
    (Except.error e : Except ε α).map f = .error e := rfl

/-- Success characterization of the cross-product loop: when no exception is raised, the
collected rows are exactly the pathway pairs passing both filters, in product order,
each rendered by `mkRow`. -/
theorem rowsLoop_ok_eq {an bn : String} {am bm : List (String × String)} {t u : ℚ} :
    ∀ {l : List ((String × Finset String) × (String × Finset String))} {rows : List Row},
      rowsLoop an bn am bm t u l = .ok rows →
      rows = (l.filter (passesB t u an bn)).map (mkRow am bm an bn) := by
  intro l
  induction l with
  | nil =>
    intro rows h
    rw [rowsLoop] at h
    cases h
    rfl
  | cons p rest ih =>
    obtain ⟨⟨ap, aset⟩, bp, bset⟩ := p
    intro rows h
    rw [rowsLoop] at h
    cases hj : calculate_jaccard aset bset with
    | error e =>
      rw [hj, except_bind_error] at h
      cases h
    | ok g =>
      simp only [hj, except_bind_ok] at h
      obtain ⟨hg, hmin⟩ := calculate_jaccard_ok hj
      subst hg
      by_cases h1 : jacVal aset bset < t
      · rw [if_pos h1] at h
        have hp : passesB t u an bn ((ap, aset), (bp, bset)) = false := by
          simp [passesB, not_le.mpr h1]
        simp only [List.filter_cons, hp, Bool.false_eq_true, if_false]
        exact ih h
      · rw [if_neg h1] at h
        by_cases h2 : string_similarity an bn < u
        · rw [if_pos h2] at h
          have hp : passesB t u an bn ((ap, aset), (bp, bset)) = false := by
            simp [passesB, not_le.mpr h2]
          simp only [List.filter_cons, hp, Bool.false_eq_true, if_false]
          exact ih h
        · rw [if_neg h2] at h
          have hp : passesB t u an bn ((ap, aset), (bp, bset)) = true := by
            simp [passesB, not_lt.mp h1, not_lt.mp h2]
          cases ha : dictGet am ap with
          | error e =>
            rw [ha, except_bind_error] at h
            cases h
          | ok anm =>
            simp only [ha, except_bind_ok] at h
            cases hb : dictGet bm bp with
            | error e =>
              rw [hb, except_bind_error] at h
              cases h
            | ok bnm =>
              simp only [hb, except_bind_ok] at h
              cases hr : rowsLoop an bn am bm t u rest with
              | error e =>
                rw [hr, except_bind_error] at h
                cases h
              | ok rows2 =>
                simp only [hr, except_bind_ok] at h
                cases h
                have e1 := dictGet_ok ha
                have e2 := dictGet_ok hb
                simp only [List.filter_cons, hp, if_true, List.map_cons]
                rw [← ih hr]
                unfold mkRow
                simp [e1, e2]

/-- The loop can only raise `KeyError` for a pathway pair that passes both filters: if
every passing pair has both display names, no `KeyError` is raised at all. -/
theorem rowsLoop_no_keyError {an bn : String} {am bm : List (String × String)} {t u : ℚ} :
    ∀ {l : List ((String × Finset String) × (String × Finset String))},
      (∀ p ∈ l, passesB t u an bn p = true →
        (am.lookup p.1.1).isSome ∧ (bm.lookup p.2.1).isSome) →
      ∀ k, rowsLoop an bn am bm t u l ≠ .error (.keyError k) := by
  intro l
  induction l with
  | nil =>
    intro _ k h
    rw [rowsLoop] at h
    cases h
  | cons p rest ih =>
    obtain ⟨⟨ap, aset⟩, bp, bset⟩ := p
    intro hall k h
    have hall' : ∀ p ∈ rest, passesB t u an bn p = true →
        (am.lookup p.1.1).isSome ∧ (bm.lookup p.2.1).isSome :=
      fun p hp => hall p (List.mem_cons_of_mem _ hp)
    rw [rowsLoop] at h
    cases hj : calculate_jaccard aset bset with
    | error e =>
      rw [hj, except_bind_error] at h
      have he : e = .zeroDivisionError := by
        rw [calculate_jaccard_eq] at hj
        by_cases hm : min aset.card bset.card = 0
        · rw [if_pos hm] at hj
          cases hj
          rfl
        · rw [if_neg hm] at hj
          cases hj
      injection h with h'
      rw [he] at h'
      cases h'
    | ok g =>
      simp only [hj, except_bind_ok] at h
      obtain ⟨hg, hmin⟩ := calculate_jaccard_ok hj
      subst hg
      by_cases h1 : jacVal aset bset < t
      · rw [if_pos h1] at h
        exact ih hall' k h
      · rw [if_neg h1] at h
        by_cases h2 : string_similarity an bn < u
        · rw [if_pos h2] at h
          exact ih hall' k h
        · rw [if_neg h2] at h
          have hp : passesB t u an bn ((ap, aset), (bp, bset)) = true := by
            simp [passesB, not_lt.mp h1, not_lt.mp h2]
          obtain ⟨hsa, hsb⟩ := hall _ (List.mem_cons_self _ _) hp
          obtain ⟨anm, e1⟩ := Option.isSome_iff_exists.mp hsa
          obtain ⟨bnm, e2⟩ := Option.isSome_iff_exists.mp hsb
          have ha : dictGet am ap = .ok anm := by
            unfold dictGet
            rw [e1]
          have hb : dictGet bm bp = .ok bnm := by
            unfold dictGet
            rw [e2]
          simp only [ha, hb, except_bind_ok] at h
          cases hr : rowsLoop an bn am bm t u rest with
          | error e =>
            rw [hr, except_bind_error] at h
            injection h with h'
            apply ih hall' k
            rw [hr, h']
          | ok rows2 =>
            simp only [hr, except_bind_ok] at h
            cases h

/-- Unfolding a successful `pairReport`: both name dicts resolve, the loop succeeds,
and the report is the sorted row list. -/
theorem pairReport_ok_elim {mappings : List (String × List (String × String))} {t u : ℚ}
    {pair : (String × List (String × Finset String)) × (String × List (String × Finset String))}
    {rep : List Row} (h : pairReport mappings t u pair = .ok rep) :
    ∃ am bm rows, dictGet mappings pair.1.1 = .ok am ∧ dictGet mappings pair.2.1 = .ok bm ∧
      rowsLoop pair.1.1 pair.2.1 am bm t u (listProduct pair.1.2 pair.2.2) = .ok rows ∧
      rep = List.insertionSort rowGE rows := by
  unfold pairReport at h
  cases ha : dictGet mappings pair.1.1 with
  | error e =>
    rw [ha, except_bind_error] at h
    cases h
  | ok am =>
    simp only [ha, except_bind_ok] at h
    cases hb : dictGet mappings pair.2.1 with
    | error e =>
      rw [hb, except_bind_error] at h
      cases h
    | ok bm =>
      simp only [hb, except_bind_ok] at h
      cases hr : rowsLoop pair.1.1 pair.2.1 am bm t u (listProduct pair.1.2 pair.2.2) with
      | error e =>
        rw [hr, except_bind_error] at h
        cases h
      | ok rows =>
        simp only [hr, except_bind_ok] at h
        cases h
        exact ⟨am, bm, rows, rfl, rfl, hr, rfl⟩

theorem processPairs_cons_error {d : String} {m : List (String × List (String × String))}
    {t u : ℚ} {pair rest e} (hp : pairReport m t u pair = .error e) :
    processPairs d m t u (pair :: rest) = ([], .error e) := by
  rw [processPairs, hp]

theorem processPairs_cons_ok {d : String} {m : List (String × List (String × String))}
    {t u : ℚ} {pair rest report} (hp : pairReport m t u pair = .ok report) :
    processPairs d m t u (pair :: rest) =
      (⟨tsvPath d pair.1.1 pair.2.1, report⟩ :: (processPairs d m t u rest).1,
        (processPairs d m t u rest).2.map fun rv => ((pair.1.1, pair.2.1), report) :: rv) := by
  rw [processPairs, hp]

/-- A successful run in full: the keys of `rv` are the pair names in order, and every
recorded report is the successful `pairReport` of its pair. -/
theorem processPairs_ok_elim {d : String} {m : List (String × List (String × String))}
    {t u : ℚ} :
    ∀ {l} {files} {rv : List ((String × String) × List Row)},
      processPairs d m t u l = (files, .ok rv) →
      rv.map Prod.fst = (l.map fun p => (p.1.1, p.2.1)) ∧
      ∀ kr ∈ rv, ∃ pair ∈ l, pairReport m t u pair = .ok kr.2 ∧ kr.1 = (pair.1.1, pair.2.1) := by
  intro l
  induction l with
  | nil =>
    intro files rv h
    rw [processPairs] at h
    obtain ⟨h1, h2⟩ := Prod.mk.injEq _ _ _ _ ▸ h
    injection h2 with h2
    subst h2
    exact ⟨rfl, fun kr hkr => absurd hkr (List.not_mem_nil kr)⟩
  | cons pair rest ih =>
    intro files rv h
    cases hp : pairReport m t u pair with
    | error e =>
      rw [processPairs_cons_error hp] at h
      obtain ⟨h1, h2⟩ := Prod.mk.injEq _ _ _ _ ▸ h
      cases h2
    | ok report =>
      rw [processPairs_cons_ok hp] at h
      obtain ⟨h1, h2⟩ := Prod.mk.injEq _ _ _ _ ▸ h
      cases hrest : (processPairs d m t u rest).2 with
      | error e =>
        rw [hrest, except_map_error] at h2
        cases h2
      | ok rv' =>
        rw [hrest, except_map_ok] at h2
        injection h2 with h2
        subst h2
        have hr : processPairs d m t u rest = ((processPairs d m t u rest).1, .ok rv') := by
          rw [← hrest]
        obtain ⟨ihk, ihm⟩ := ih hr
        constructor
        · rw [List.map_cons, List.map_cons, ihk]
        · intro kr hkr
          rcases List.mem_cons.mp hkr with he | hm
          · subst he
            exact ⟨pair, List.mem_cons_self _ _, hp, rfl⟩
          · obtain ⟨pair', hmem, hrep, hkey⟩ := ihm kr hm
            exact ⟨pair', List.mem_cons_of_mem _ hmem, hrep, hkey⟩

/-- Every report a successful run records is sorted by the pandas key. -/
theorem pairReport_ok_sorted {m : List (String × List (String × String))} {t u : ℚ}
    {pair} {rep : List Row} (h : pairReport m t u pair = .ok rep) : rep.Pairwise rowGE := by
  obtain ⟨am, bm, rows, _, _, _, hrep⟩ := pairReport_ok_elim h
  rw [hrep]
  exact List.sorted_insertionSort rowGE rows

/-- Raising the gene-set threshold can only shrink one pair's report. -/
theorem pairReport_length_antitone {m : List (String × List (String × String))} {u : ℚ}
    {pair} {t1 t2 : ℚ} {r1 r2 : List Row} (ht : t1 ≤ t2)
    (h1 : pairReport m t1 u pair = .ok r1) (h2 : pairReport m t2 u pair = .ok r2) :
    r2.length ≤ r1.length := by
  obtain ⟨am1, bm1, rows1, ha1, hb1, hr1, e1⟩ := pairReport_ok_elim h1
  obtain ⟨am2, bm2, rows2, ha2, hb2, hr2, e2⟩ := pairReport_ok_elim h2
  rw [ha1] at ha2
  injection ha2 with ha2
  subst ha2
  rw [hb1] at hb2
  injection hb2 with hb2
  subst hb2
  rw [e1, e2, List.length_insertionSort, List.length_insertionSort,
    rowsLoop_ok_eq hr1, rowsLoop_ok_eq hr2, List.length_map, List.length_map]
  apply List.Sublist.length_le
  apply List.monotone_filter_right
  intro p hp
  simp only [passesB, Bool.and_eq_true, decide_eq_true_eq] at hp ⊢
  exact ⟨le_trans ht hp.1, hp.2⟩

/-- When the first failing pair is `p`, the run keeps exactly the files of the pairs
before `p` and returns the exception. -/
theorem processPairs_first_error {d : String} {m : List (String × List (String × String))}
    {t u : ℚ} {p} {e : PyError} (herr : pairReport m t u p = .error e) :
    ∀ {l1 l2}, (∀ q ∈ l1, ∃ r, pairReport m t u q = .ok r) →
      processPairs d m t u (l1 ++ p :: l2) = ((processPairs d m t u l1).1, .error e) := by
  intro l1
  induction l1 with
  | nil =>
    intro l2 _
    rw [List.nil_append, processPairs_cons_error herr]
    rfl
  | cons q l1' ih =>
    intro l2 hok
    obtain ⟨r, hq⟩ := hok q (List.mem_cons_self _ _)
    rw [List.cons_append, processPairs_cons_ok hq,
      ih (fun q' hq' => hok q' (List.mem_cons_of_mem _ hq')), processPairs_cons_ok hq]
    simp [except_map_error]

/-- Lookup-aligned antitonicity of report length in the gene-set threshold over a
whole run. -/
theorem processPairs_lookup_antitone {d : String} {m : List (String × List (String × String))}
    {u t1 t2 : ℚ} (ht : t1 ≤ t2) :
    ∀ {l} {f1 f2} {rv1 rv2 : List ((String × String) × List Row)}
      {key : String × String} {r1 r2 : List Row},
      processPairs d m t1 u l = (f1, .ok rv1) → processPairs d m t2 u l = (f2, .ok rv2) →
      rv1.lookup key = some r1 → rv2.lookup key = some r2 → r2.length ≤ r1.length := by
  intro l
  induction l with
  | nil =>
    intro f1 f2 rv1 rv2 key r1 r2 h1 h2 hl1 hl2
    rw [processPairs] at h1
    obtain ⟨ha, hb⟩ := Prod.mk.injEq _ _ _ _ ▸ h1
    injection hb with hb
    subst hb
    cases hl1
  | cons pair rest ih =>
    intro f1 f2 rv1 rv2 key r1 r2 h1 h2 hl1 hl2
    cases hp1 : pairReport m t1 u pair with
    | error e =>
      rw [processPairs_cons_error hp1] at h1
      obtain ⟨ha, hb⟩ := Prod.mk.injEq _ _ _ _ ▸ h1
      cases hb
    | ok rep1 =>
      cases hp2 : pairReport m t2 u pair with
      | error e =>
        rw [processPairs_cons_error hp2] at h2
        obtain ⟨ha, hb⟩ := Prod.mk.injEq _ _ _ _ ▸ h2
        cases hb
      | ok rep2 =>
        rw [processPairs_cons_ok hp1] at h1
        rw [processPairs_cons_ok hp2] at h2
        obtain ⟨ha1, hb1⟩ := Prod.mk.injEq _ _ _ _ ▸ h1
        obtain ⟨ha2, hb2⟩ := Prod.mk.injEq _ _ _ _ ▸ h2
        cases hrest1 : (processPairs d m t1 u rest).2 with
        | error e =>
          rw [hrest1, except_map_error] at hb1
          cases hb1
        | ok rv1' =>
          rw [hrest1, except_map_ok] at hb1
          injection hb1 with hb1
          subst hb1
          cases hrest2 : (processPairs d m t2 u rest).2 with
          | error e =>
            rw [hrest2, except_map_error] at hb2
            cases hb2
          | ok rv2' =>
            rw [hrest2, except_map_ok] at hb2
            injection hb2 with hb2
            subst hb2
            cases hbeq : key == (pair.1.1, pair.2.1) with
            | true =>
              simp only [List.lookup, hbeq] at hl1 hl2
              injection hl1 with hl1
              injection hl2 with hl2
              subst hl1
              subst hl2
              exact pairReport_length_antitone ht hp1 hp2
            | false =>
              simp only [List.lookup, hbeq] at hl1 hl2
              have hr1 : processPairs d m t1 u rest =
                  ((processPairs d m t1 u rest).1, .ok rv1') := by rw [← hrest1]
              have hr2 : processPairs d m t2 u rest =
                  ((processPairs d m t2 u rest).1, .ok rv2') := by rw [← hrest2]
              exact ih hr1 hr2 hl1 hl2

theorem dictInsert_append {β : Type} :
    ∀ {m : List (String × β)} {k : String} {v : β}, k ∉ m.map Prod.fst →
      dictInsert m k v = m ++ [(k, v)] := by
  intro m
  induction m with
  | nil => intro k v _; rfl
  | cons kv rest ih =>
    intro k v h
    obtain ⟨k0, v0⟩ := kv
    rw [List.map_cons, List.mem_cons] at h
    push_neg at h
    rw [dictInsert, if_neg (fun he => h.1 he.symm), ih h.2, List.cons_append]

theorem foldl_dictInsert {β : Type} (val : Source → β) :
    ∀ (sources : List Source) (acc : List (String × β)),
      (∀ s ∈ sources, s.name ∉ acc.map Prod.fst) → (sources.map Source.name).Nodup →
      sources.foldl (fun m s => dictInsert m s.name (val s)) acc =
        acc ++ sources.map fun s => (s.name, val s) := by
  intro sources
  induction sources with
  | nil => intro acc _ _; simp
  | cons s ss ih =>
    intro acc hacc hnd
    rw [List.map_cons, List.nodup_cons] at hnd
    rw [List.foldl_cons, dictInsert_append (hacc s (List.mem_cons_self _ _))]
    rw [ih (acc ++ [(s.name, val s)]) ?_ hnd.2]
    · simp
    · intro s' hs'
      rw [List.map_append, List.mem_append]
      push_neg
      refine ⟨hacc s' (List.mem_cons_of_mem _ hs'), ?_⟩
      simp only [List.map_cons, List.map_nil, List.mem_singleton]
      intro he
      exact hnd.1 (he ▸ List.mem_map.mpr ⟨s', hs', rfl⟩)

theorem databaseOf_eq {sources : List Source} (hnd : (sources.map Source.name).Nodup) :
    databaseOf sources = sources.map fun s => (s.name, s.gene_sets) := by
  unfold databaseOf
  rw [foldl_dictInsert Source.gene_sets sources [] (by simp) hnd]
  rfl

theorem mappingsOf_eq {sources : List Source} (hnd : (sources.map Source.name).Nodup) :
    mappingsOf sources = sources.map fun s => (s.name, s.pathway_names) := by
  unfold mappingsOf
  rw [foldl_dictInsert Source.pathway_names sources [] (by simp) hnd]
  rfl

theorem combinations2_map {α γ : Type} (f : α → γ) :
    ∀ l : List α, combinations2 (l.map f) = (combinations2 l).map (Prod.map f f) := by
  intro l
  induction l with
  | nil => rfl
  | cons x xs ih =>
    rw [List.map_cons, combinations2, combinations2, ih, List.map_append, List.map_map,
      List.map_map]
    rfl

theorem mem_combinations2_mem {α : Type} :
    ∀ {l : List α} {x y : α}, (x, y) ∈ combinations2 l → x ∈ l ∧ y ∈ l := by
  intro l
  induction l with
  | nil => intro x y h; cases h
  | cons z zs ih =>
    intro x y h
    rw [combinations2, List.mem_append] at h
    rcases h with h | h
    · obtain ⟨y', hy', he⟩ := List.mem_map.mp h
      obtain ⟨he1, he2⟩ := Prod.mk.injEq _ _ _ _ ▸ he
      subst he1
      subst he2
      exact ⟨List.mem_cons_self _ _, List.mem_cons_of_mem _ hy'⟩
    · obtain ⟨hx, hy⟩ := ih h
      exact ⟨List.mem_cons_of_mem _ hx, List.mem_cons_of_mem _ hy⟩

theorem combinations2_ne {α : Type} :
    ∀ {l : List α}, l.Nodup → ∀ {x y : α}, (x, y) ∈ combinations2 l → x ≠ y := by
  intro l
  induction l with
  | nil => intro _ x y h; cases h
  | cons z zs ih =>
    intro hnd x y h
    rw [List.nodup_cons] at hnd
    rw [combinations2, List.mem_append] at h
    rcases h with h | h
    · obtain ⟨y', hy', he⟩ := List.mem_map.mp h
      obtain ⟨he1, he2⟩ := Prod.mk.injEq _ _ _ _ ▸ he
      subst he1
      subst he2
      intro he
      exact hnd.1 (he ▸ hy')
    · exact ih hnd.2 h

theorem combinations2_asym {α : Type} :
    ∀ {l : List α}, l.Nodup → ∀ {x y : α},
      (x, y) ∈ combinations2 l → (y, x) ∉ combinations2 l := by
  intro l
  induction l with
  | nil => intro _ x y h; cases h
  | cons z zs ih =>
    intro hnd x y h hrev
    rw [List.nodup_cons] at hnd
    rw [combinations2, List.mem_append] at h hrev
    rcases h with h | h <;> rcases hrev with hr | hr
    · obtain ⟨y', hy', he⟩ := List.mem_map.mp h
      obtain ⟨x', hx', he'⟩ := List.mem_map.mp hr
      apply hnd.1
      have hs : y' = y := congrArg Prod.snd he
      have hy0 : z = y := congrArg Prod.fst he'
      rw [hs, ← hy0] at hy'
      exact hy'
    · obtain ⟨y', hy', he⟩ := List.mem_map.mp h
      apply hnd.1
      have hx0 : z = x := congrArg Prod.fst he
      rw [hx0]
      exact (mem_combinations2_mem hr).2
    · obtain ⟨x', hx', he⟩ := List.mem_map.mp hr
      apply hnd.1
      have hy0 : z = y := congrArg Prod.fst he
      rw [hy0]
      exact (mem_combinations2_mem h).2
    · exact ih hnd.2 h hr

theorem combinations2_cover {α : Type} :
    ∀ {l : List α} {x y : α}, x ∈ l → y ∈ l → x ≠ y →
      (x, y) ∈ combinations2 l ∨ (y, x) ∈ combinations2 l := by
  intro l
  induction l with
  | nil => intro x y h; cases h
  | cons z zs ih =>
    intro x y hx hy hne
    rw [combinations2]
    rcases List.mem_cons.mp hx with he1 | hm1 <;> rcases List.mem_cons.mp hy with he2 | hm2
    · exact absurd (he1.trans he2.symm) hne
    · subst he1
      exact Or.inl (List.mem_append.mpr (Or.inl (List.mem_map.mpr ⟨y, hm2, rfl⟩)))
    · subst he2
      exact Or.inr (List.mem_append.mpr (Or.inl (List.mem_map.mpr ⟨x, hm1, rfl⟩)))
    · rcases ih hm1 hm2 hne with h | h
      · exact Or.inl (List.mem_append.mpr (Or.inr h))
      · exact Or.inr (List.mem_append.mpr (Or.inr h))

theorem combinations2_nodup {α : Type} :
    ∀ {l : List α}, l.Nodup → (combinations2 l).Nodup := by
  intro l
  induction l with
  | nil => intro _; exact List.nodup_nil
  | cons z zs ih =>
    intro hnd
    rw [List.nodup_cons] at hnd
    rw [combinations2]
    refine List.nodup_append.mpr ⟨List.Nodup.map ?_ hnd.2, ih hnd.2, ?_⟩
    · intro a b he
      exact congrArg Prod.snd he
    · intro p hp1 hp2
      obtain ⟨y', hy', he⟩ := List.mem_map.mp hp1
      subst he
      exact hnd.1 (mem_combinations2_mem hp2).1

/-!  The claims. -/

/-- C1: for every pair of non-empty finite sets, `calculate_jaccard` returns exactly
`|set1 ∩ set2| / min(|set1|, |set2|)` as an exact rational value. -/
theorem claim_C1_jaccard_exact (s1 s2 : Finset String)
    (h1 : s1.Nonempty) (h2 : s2.Nonempty) :
    calculate_jaccard s1 s2 =
      .ok (((s1 ∩ s2).card : ℚ) / ((min s1.card s2.card : ℕ) : ℚ)) := by
  have hm : min s1.card s2.card ≠ 0 :=
    Nat.pos_iff_ne_zero.mp (lt_min_iff.mpr ⟨h1.card_pos, h2.card_pos⟩)
  rw [calculate_jaccard_eq, if_neg hm, jacVal, mkRat_natCast_div]

/-- C1 witness: a concrete evaluation of the theorem. -/
theorem claim_C1_jaccard_exact_witness :
    calculate_jaccard {"a", "b"} {"b", "c"} =
      .ok (((({"a", "b"} : Finset String) ∩ {"b", "c"}).card : ℚ) /
        ((min ({"a", "b"} : Finset String).card ({"b", "c"} : Finset String).card : ℕ) : ℚ)) :=
  claim_C1_jaccard_exact _ _ (by decide) (by decide)

/-- C5 counterexample: on an empty first argument the code raises Python's anonymous
`ZeroDivisionError` from the bare division, not a named `InvalidInput` error — no
`InvalidInput` exists anywhere in the code, so the claim's named-error behaviour does
not hold as stated. -/
theorem claim_C5_counterexample :
    calculate_jaccard ∅ {"g"} = .error .zeroDivisionError := by decide

/-- C5 amended: calling `calculate_jaccard` with an empty set as either argument fails
with the (anonymous) `ZeroDivisionError` raised by the division — it does not return 0
or NaN — but the code defines no named `InvalidInput` error. -/
theorem claim_C5_amended_empty_raises (s1 s2 : Finset String) (h : s1 = ∅ ∨ s2 = ∅) :
    calculate_jaccard s1 s2 = .error .zeroDivisionError := by
  have hm : min s1.card s2.card = 0 := by
    rcases h with h | h <;> simp [h]
  rw [calculate_jaccard_eq, if_pos hm]

/-- C5 witness: the amended statement at a concrete input. -/
theorem claim_C5_amended_witness :
    calculate_jaccard {"x", "y"} ∅ = .error .zeroDivisionError :=
  claim_C5_amended_empty_raises _ _ (Or.inr rfl)

/-- C7: `calculate_jaccard` is symmetric in its two arguments, and on a non-empty set
compared with itself it returns exactly 1. -/
theorem claim_C7_symm_self (s1 s2 s : Finset String) (h : s.Nonempty) :
    calculate_jaccard s1 s2 = calculate_jaccard s2 s1 ∧
      calculate_jaccard s s = .ok 1 := by
  constructor
  · rw [calculate_jaccard_eq, calculate_jaccard_eq, jacVal, jacVal,
      Finset.inter_comm s1 s2, min_comm s1.card s2.card]
  · have hc : s.card ≠ 0 := Nat.pos_iff_ne_zero.mp h.card_pos
    have hm : min s.card s.card ≠ 0 := by rw [min_self]; exact hc
    rw [calculate_jaccard_eq, if_neg hm, jacVal, Finset.inter_self, min_self,
      mkRat_natCast_div, div_self (Nat.cast_ne_zero.mpr hc)]

/-- C7 witness: symmetry and self-similarity at concrete sets. -/
theorem claim_C7_symm_self_witness :
    calculate_jaccard {"a"} {"b", "c"} = calculate_jaccard {"b", "c"} {"a"} ∧
      calculate_jaccard {"x", "y"} {"x", "y"} = .ok 1 :=
  claim_C7_symm_self {"a"} {"b", "c"} {"x", "y"} (by decide)

/-- C8: with zero or one populated source there are no pairs: the run returns an empty
mapping and writes no report file. -/
theorem claim_C8_degenerate (directory : String) (t u : ℚ) (src : Source) :
    make_similarity_matricies directory [] t u = ([], .ok []) ∧
      make_similarity_matricies directory [src] t u = ([], .ok []) :=
  ⟨rfl, rfl⟩

/-- C2: in a successfully computed report for the comparison pair `(A, B)`, a row for a
given pathway pair appears if and only if its gene-set similarity is at least
`min_gene_set_similarity` and the string similarity of the two source names is at least
`min_string_similarity`; a pathway pair strictly below either threshold contributes no
row. -/
theorem claim_C2_filter_iff (A B : String)
    (a_sets b_sets : List (String × Finset String))
    (mappings : List (String × List (String × String))) (t u : ℚ) (report : List Row)
    (h : pairReport mappings t u ((A, a_sets), (B, b_sets)) = .ok report)
    (hA : (a_sets.map Prod.fst).Nodup) (hB : (b_sets.map Prod.fst).Nodup)
    (a_pid : String) (a_set : Finset String) (hpa : (a_pid, a_set) ∈ a_sets)
    (b_pid : String) (b_set : Finset String) (hpb : (b_pid, b_set) ∈ b_sets) :
    (∃ r ∈ report, r.a_pathway_id = a_pid ∧ r.b_pathway_id = b_pid) ↔
      (t ≤ jacVal a_set b_set ∧ u ≤ string_similarity A B) := by
  obtain ⟨am, bm, rows, ha, hb, hr, hrep⟩ := pairReport_ok_elim h
  have hrows := rowsLoop_ok_eq hr
  constructor
  · rintro ⟨r, hrmem, hr1, hr2⟩
    rw [hrep, List.mem_insertionSort, hrows] at hrmem
    obtain ⟨p, hpmem, hmk⟩ := List.mem_map.mp hrmem
    obtain ⟨hprod, hpass⟩ := List.mem_filter.mp hpmem
    obtain ⟨⟨ap2, aset2⟩, bp2, bset2⟩ := p
    have h1 : ap2 = a_pid := by
      rw [← hr1, ← hmk]
      rfl
    have h2 : bp2 = b_pid := by
      rw [← hr2, ← hmk]
      rfl
    subst h1
    subst h2
    obtain ⟨hpa2, hpb2⟩ := mem_listProduct.mp hprod
    have ea : aset2 = a_set := keys_nodup_val_eq hA hpa2 hpa
    have eb : bset2 = b_set := keys_nodup_val_eq hB hpb2 hpb
    subst ea
    subst eb
    simpa only [passesB, Bool.and_eq_true, decide_eq_true_eq] using hpass
  · rintro ⟨h1, h2⟩
    refine ⟨mkRow am bm A B ((a_pid, a_set), (b_pid, b_set)), ?_, rfl, rfl⟩
    rw [hrep, List.mem_insertionSort, hrows]
    apply List.mem_map_of_mem
    rw [List.mem_filter]
    refine ⟨mem_listProduct.mpr ⟨hpa, hpb⟩, ?_⟩
    simp [passesB, h1, h2]

/-- C3: on distinct-named sources, a successful run's mapping has exactly one entry per
unordered pair of distinct source names — no self pair, never both orientations, every
unordered pair covered, and no duplicate keys. -/
theorem claim_C3_unordered_pairs (dir : String) (sources : List Source) (t u : ℚ)
    (files : List FileWrite) (rv : List ((String × String) × List Row))
    (hnd : (sources.map Source.name).Nodup)
    (h : make_similarity_matricies dir sources t u = (files, .ok rv)) :
    (∀ A, (A, A) ∉ rv.map Prod.fst) ∧
    (∀ A B, (A, B) ∈ rv.map Prod.fst → (B, A) ∉ rv.map Prod.fst) ∧
    (∀ A B, A ∈ sources.map Source.name → B ∈ sources.map Source.name → A ≠ B →
      ((A, B) ∈ rv.map Prod.fst ∨ (B, A) ∈ rv.map Prod.fst)) ∧
    (rv.map Prod.fst).Nodup := by
  unfold make_similarity_matricies at h
  obtain ⟨hkeys, _⟩ := processPairs_ok_elim h
  have hkeys2 : rv.map Prod.fst = combinations2 (sources.map Source.name) := by
    rw [hkeys, databaseOf_eq hnd, combinations2_map (fun s => (s.name, s.gene_sets)) sources,
      List.map_map, combinations2_map Source.name sources]
    rfl
  rw [hkeys2]
  exact ⟨fun A hA => absurd rfl (combinations2_ne hnd hA),
    fun A B hAB => combinations2_asym hnd hAB,
    fun A B hA hB hne => combinations2_cover hA hB hne,
    combinations2_nodup hnd⟩

/-- C4: every report of a successful run is sorted so that each earlier row is greater
or equal to each later row in the lexicographic descending order on
(first pathway id, gene-set similarity) — the `rowGE` relation. -/
theorem claim_C4_sorted (dir : String) (sources : List Source) (t u : ℚ)
    (files : List FileWrite) (rv : List ((String × String) × List Row))
    (key : String × String) (report : List Row)
    (h : make_similarity_matricies dir sources t u = (files, .ok rv))
    (hm : (key, report) ∈ rv) :
    report.Pairwise rowGE := by
  unfold make_similarity_matricies at h
  obtain ⟨_, hmem⟩ := processPairs_ok_elim h
  obtain ⟨pair, _, hrep, _⟩ := hmem (key, report) hm
  exact pairReport_ok_sorted hrep

/-- C6: with sources, the string threshold and all gene sets held fixed, raising the
gene-set threshold from `t1` to `t2 ≥ t1` never grows any pair's report: whenever both
runs succeed, each pair's report at `t2` has at most as many rows as at `t1`. -/
theorem claim_C6_antitone (dir : String) (sources : List Source) (u t1 t2 : ℚ)
    (f1 f2 : List FileWrite) (rv1 rv2 : List ((String × String) × List Row))
    (key : String × String) (r1 r2 : List Row)
    (ht : t1 ≤ t2)
    (h1 : make_similarity_matricies dir sources t1 u = (f1, .ok rv1))
    (h2 : make_similarity_matricies dir sources t2 u = (f2, .ok rv2))
    (hl1 : rv1.lookup key = some r1) (hl2 : rv2.lookup key = some r2) :
    r2.length ≤ r1.length := by
  unfold make_similarity_matricies at h1 h2
  exact processPairs_lookup_antitone ht h1 h2 hl1 hl2

/-- C9: the display-name dicts are consulted only for pathway pairs that pass both
filters, so when every passing pathway pair has both names present, the cross-product
loop never raises a `KeyError` — pathway ids that never pass may be absent. -/
theorem claim_C9_lazy_names (a_name b_name : String)
    (a_sets b_sets : List (String × Finset String))
    (am bm : List (String × String)) (t u : ℚ) (k : String)
    (h : ∀ pa ∈ a_sets, ∀ pb ∈ b_sets, passesB t u a_name b_name (pa, pb) = true →
      (am.lookup pa.1).isSome ∧ (bm.lookup pb.1).isSome) :
    rowsLoop a_name b_name am bm t u (listProduct a_sets b_sets) ≠
      .error (.keyError k) := by
  apply rowsLoop_no_keyError
  intro p hp hpass
  obtain ⟨pa, pb⟩ := p
  obtain ⟨hpa, hpb⟩ := mem_listProduct.mp hp
  exact h pa hpa pb hpb hpass

/-- C10: a report file is emitted only after all of the pair's rows are computed: when
pair `p` is the first whose computation raises, the run's output is exactly the files of
the pairs before `p` — nothing for `p` or later — and no mapping is returned. -/
theorem claim_C10_no_partial_file (dir : String) (sources : List Source) (t u : ℚ)
    (l1 l2 : List ((String × List (String × Finset String)) ×
      (String × List (String × Finset String))))
    (p : (String × List (String × Finset String)) × (String × List (String × Finset String)))
    (e : PyError)
    (hsplit : combinations2 (databaseOf sources) = l1 ++ p :: l2)
    (hok : ∀ q ∈ l1, ∃ r, pairReport (mappingsOf sources) t u q = .ok r)
    (herr : pairReport (mappingsOf sources) t u p = .error e) :
    make_similarity_matricies dir sources t u =
      ((processPairs dir (mappingsOf sources) t u l1).1, .error e) := by
  unfold make_similarity_matricies
  rw [hsplit]
  exact processPairs_first_error herr hok

/-- C2 witness: the filter characterization evaluated on a concrete two-source run. -/
theorem claim_C2_filter_iff_witness :
    (∃ r ∈ [(⟨"hsa2", "P2", "wp1", "Q1", 0, mkRat 1 4⟩ : Row),
        ⟨"hsa1", "P1", "wp1", "Q1", 1, mkRat 1 4⟩],
      r.a_pathway_id = "hsa1" ∧ r.b_pathway_id = "wp1") ↔
      ((0 : ℚ) ≤ jacVal {"A", "B"} {"A", "B"} ∧
        (0 : ℚ) ≤ string_similarity "kegg" "wiki") :=
  claim_C2_filter_iff "kegg" "wiki"
    [("hsa1", {"A", "B"}), ("hsa2", {"C"})] [("wp1", {"A", "B"})]
    [("kegg", [("hsa1", "P1"), ("hsa2", "P2")]), ("wiki", [("wp1", "Q1")])] 0 0
    [⟨"hsa2", "P2", "wp1", "Q1", 0, mkRat 1 4⟩, ⟨"hsa1", "P1", "wp1", "Q1", 1, mkRat 1 4⟩]
    rfl (by decide) (by decide) "hsa1" {"A", "B"} (by decide) "wp1" {"A", "B"} (by decide)

/-- C3 witness: the pair-key properties evaluated on a concrete two-source run. -/
theorem claim_C3_unordered_pairs_witness :
    (∀ A, (A, A) ∉ ([(("kegg", "wiki"),
        [(⟨"hsa2", "P2", "wp1", "Q1", 0, mkRat 1 4⟩ : Row),
          ⟨"hsa1", "P1", "wp1", "Q1", 1, mkRat 1 4⟩])].map Prod.fst)) ∧
    (∀ A B, (A, B) ∈ ([(("kegg", "wiki"),
        [(⟨"hsa2", "P2", "wp1", "Q1", 0, mkRat 1 4⟩ : Row),
          ⟨"hsa1", "P1", "wp1", "Q1", 1, mkRat 1 4⟩])].map Prod.fst) →
      (B, A) ∉ ([(("kegg", "wiki"),
        [(⟨"hsa2", "P2", "wp1", "Q1", 0, mkRat 1 4⟩ : Row),
          ⟨"hsa1", "P1", "wp1", "Q1", 1, mkRat 1 4⟩])].map Prod.fst)) ∧
    (∀ A B,
      A ∈ [⟨"kegg", [("hsa1", {"A", "B"}), ("hsa2", {"C"})],
            [("hsa1", "P1"), ("hsa2", "P2")]⟩,
          (⟨"wiki", [("wp1", {"A", "B"})], [("wp1", "Q1")]⟩ : Source)].map Source.name →
      B ∈ [⟨"kegg", [("hsa1", {"A", "B"}), ("hsa2", {"C"})],
            [("hsa1", "P1"), ("hsa2", "P2")]⟩,
          (⟨"wiki", [("wp1", {"A", "B"})], [("wp1", "Q1")]⟩ : Source)].map Source.name →
      A ≠ B →
      ((A, B) ∈ ([(("kegg", "wiki"),
        [(⟨"hsa2", "P2", "wp1", "Q1", 0, mkRat 1 4⟩ : Row),
          ⟨"hsa1", "P1", "wp1", "Q1", 1, mkRat 1 4⟩])].map Prod.fst) ∨
        (B, A) ∈ ([(("kegg", "wiki"),
          [(⟨"hsa2", "P2", "wp1", "Q1", 0, mkRat 1 4⟩ : Row),
            ⟨"hsa1", "P1", "wp1", "Q1", 1, mkRat 1 4⟩])].map Prod.fst))) ∧
    ([(("kegg", "wiki"),
        [(⟨"hsa2", "P2", "wp1", "Q1", 0, mkRat 1 4⟩ : Row),
          ⟨"hsa1", "P1", "wp1", "Q1", 1, mkRat 1 4⟩])].map Prod.fst).Nodup :=
  claim_C3_unordered_pairs "out"
    [⟨"kegg", [("hsa1", {"A", "B"}), ("hsa2", {"C"})], [("hsa1", "P1"), ("hsa2", "P2")]⟩,
     ⟨"wiki", [("wp1", {"A", "B"})], [("wp1", "Q1")]⟩] 0 0
    [⟨"out/kegg_wiki.tsv", [⟨"hsa2", "P2", "wp1", "Q1", 0, mkRat 1 4⟩,
      ⟨"hsa1", "P1", "wp1", "Q1", 1, mkRat 1 4⟩]⟩]
    [(("kegg", "wiki"), [⟨"hsa2", "P2", "wp1", "Q1", 0, mkRat 1 4⟩,
      ⟨"hsa1", "P1", "wp1", "Q1", 1, mkRat 1 4⟩])]
    (by decide) rfl

/-- C4 witness: sortedness of a concrete report whose two rows have distinct first
pathway ids and distinct gene-set scores. -/
theorem claim_C4_sorted_witness :
    ([(⟨"hsa2", "P2", "wp1", "Q1", 0, mkRat 1 4⟩ : Row),
      ⟨"hsa1", "P1", "wp1", "Q1", 1, mkRat 1 4⟩] : List Row).Pairwise rowGE :=
  claim_C4_sorted "out"
    [⟨"kegg", [("hsa1", {"A", "B"}), ("hsa2", {"C"})], [("hsa1", "P1"), ("hsa2", "P2")]⟩,
     ⟨"wiki", [("wp1", {"A", "B"})], [("wp1", "Q1")]⟩] 0 0
    [⟨"out/kegg_wiki.tsv", [⟨"hsa2", "P2", "wp1", "Q1", 0, mkRat 1 4⟩,
      ⟨"hsa1", "P1", "wp1", "Q1", 1, mkRat 1 4⟩]⟩]
    [(("kegg", "wiki"), [⟨"hsa2", "P2", "wp1", "Q1", 0, mkRat 1 4⟩,
      ⟨"hsa1", "P1", "wp1", "Q1", 1, mkRat 1 4⟩])]
    ("kegg", "wiki")
    [⟨"hsa2", "P2", "wp1", "Q1", 0, mkRat 1 4⟩, ⟨"hsa1", "P1", "wp1", "Q1", 1, mkRat 1 4⟩]
    rfl (by decide)

/-- C6 witness: the same pair's report shrinks from two rows to one when the gene-set
threshold rises from 0 to 1. -/
theorem claim_C6_antitone_witness :
    ([(⟨"hsa1", "P1", "wp1", "Q1", 1, mkRat 1 4⟩ : Row)] : List Row).length ≤
      ([⟨"hsa2", "P2", "wp1", "Q1", 0, mkRat 1 4⟩,
        (⟨"hsa1", "P1", "wp1", "Q1", 1, mkRat 1 4⟩ : Row)] : List Row).length :=
  claim_C6_antitone "out"
    [⟨"kegg", [("hsa1", {"A", "B"}), ("hsa2", {"C"})], [("hsa1", "P1"), ("hsa2", "P2")]⟩,
     ⟨"wiki", [("wp1", {"A", "B"})], [("wp1", "Q1")]⟩] 0 0 1
    [⟨"out/kegg_wiki.tsv", [⟨"hsa2", "P2", "wp1", "Q1", 0, mkRat 1 4⟩,
      ⟨"hsa1", "P1", "wp1", "Q1", 1, mkRat 1 4⟩]⟩]
    [⟨"out/kegg_wiki.tsv", [⟨"hsa1", "P1", "wp1", "Q1", 1, mkRat 1 4⟩]⟩]
    [(("kegg", "wiki"), [⟨"hsa2", "P2", "wp1", "Q1", 0, mkRat 1 4⟩,
      ⟨"hsa1", "P1", "wp1", "Q1", 1, mkRat 1 4⟩])]
    [(("kegg", "wiki"), [⟨"hsa1", "P1", "wp1", "Q1", 1, mkRat 1 4⟩])]
    ("kegg", "wiki")
    [⟨"hsa2", "P2", "wp1", "Q1", 0, mkRat 1 4⟩, ⟨"hsa1", "P1", "wp1", "Q1", 1, mkRat 1 4⟩]
    [⟨"hsa1", "P1", "wp1", "Q1", 1, mkRat 1 4⟩]
    zero_le_one rfl rfl rfl rfl

/-- C9 witness: the pathway `p2` has no display name, but its only pathway pair fails
the gene-set filter, so no `KeyError` is raised for it. -/
theorem claim_C9_lazy_names_witness :
    rowsLoop "alpha" "beta" [("p1", "P1")] [("q1", "Q1")] (mkRat 1 2) 0
      (listProduct [("p1", {"g"}), ("p2", {"h"})] [("q1", {"g"})]) ≠
      .error (.keyError "p2") :=
  claim_C9_lazy_names "alpha" "beta" [("p1", {"g"}), ("p2", {"h"})] [("q1", {"g"})]
    [("p1", "P1")] [("q1", "Q1")] (mkRat 1 2) 0 "p2" (by decide)

/-- C10 witness: with three sources whose second comparison pair contains an empty gene
set, the run keeps exactly the first pair's file and aborts with `ZeroDivisionError`. -/
theorem claim_C10_no_partial_file_witness :
    make_similarity_matricies "out"
      [⟨"aaa", [("p1", {"g1"})], [("p1", "P1")]⟩,
       ⟨"bbb", [("q1", {"g1"})], [("q1", "Q1")]⟩,
       ⟨"ccc", [("r1", ∅)], [("r1", "R1")]⟩] 0 0 =
      ((processPairs "out" (mappingsOf
          [⟨"aaa", [("p1", {"g1"})], [("p1", "P1")]⟩,
           ⟨"bbb", [("q1", {"g1"})], [("q1", "Q1")]⟩,
           ⟨"ccc", [("r1", ∅)], [("r1", "R1")]⟩]) 0 0
        [(("aaa", [("p1", {"g1"})]), ("bbb", [("q1", {"g1"})]))]).1,
        .error .zeroDivisionError) :=
  claim_C10_no_partial_file "out"
    [⟨"aaa", [("p1", {"g1"})], [("p1", "P1")]⟩,
     ⟨"bbb", [("q1", {"g1"})], [("q1", "Q1")]⟩,
     ⟨"ccc", [("r1", ∅)], [("r1", "R1")]⟩] 0 0
    [(("aaa", [("p1", {"g1"})]), ("bbb", [("q1", {"g1"})]))]
    [(("bbb", [("q1", {"g1"})]), ("ccc", [("r1", ∅)]))]
    (("aaa", [("p1", {"g1"})]), ("ccc", [("r1", ∅)]))
    .zeroDivisionError rfl
    (fun q hq => by
      rw [List.mem_singleton.mp hq]
      exact ⟨[⟨"p1", "P1", "q1", "Q1", 1, 0⟩], rfl⟩)
    rfl
